import Mathlib

/-!
Verification of the core logic of `Spotify.py` (a Streamlit playlist
personalisation app).  The Python functions are shallowly embedded as
executable Lean definitions over `List Char` strings and explicit state;
pandas frames are modelled as lists of rows or named columns, and the
unseeded shuffle in `build_playlist_from_subset` is modelled by taking the
already-shuffled row list as the function argument, and the regex engine
behind `Series.str.contains` (pandas default regex mode) is an explicit
parameter whose pinned law is literal matching of metacharacter-free
patterns, with its `re.error` raise as an explicit error branch.
Real-valued features are modelled over `ℚ`; `np.linalg.norm` comparisons are modelled by squared
Euclidean distance, which is order-equivalent since `sqrt` is strictly
monotone.
-/

/-- Strings of the embedded program are lists of characters. -/
abbrev Str := List Char

/-- Decidable equality for `Except`, used to evaluate the concrete
theorems about fallible operations. -/
instance {e a : Type} [DecidableEq e] [DecidableEq a] : DecidableEq (Except e a) := fun x y =>
  match x, y with
  | Except.error u, Except.error v =>
    if h : u = v then isTrue (congrArg Except.error h)
    else isFalse (fun hc => h (Except.error.inj hc))
  | Except.error _, Except.ok _ => isFalse (fun hc => Except.noConfusion hc)
  | Except.ok _, Except.error _ => isFalse (fun hc => Except.noConfusion hc)
  | Except.ok u, Except.ok v =>
    if h : u = v then isTrue (congrArg Except.ok h)
    else isFalse (fun hc => h (Except.ok.inj hc))

/-- The whitespace class used by `str.strip` and the regex `\s` in
`sanitize_comment` (ASCII part: space, tab, newline, CR, VT, FF). -/
def pyIsSpace (c : Char) : Bool :=
  c == ' ' || c == Char.ofNat 9 || c == Char.ofNat 10 ||
  c == Char.ofNat 13 || c == Char.ofNat 11 || c == Char.ofNat 12

/-- Model of Python `str.isprintable` per character: ASCII printable range,
and non-ASCII characters above U+00A0 treated as printable (the control,
separator and format characters relevant to the source all lie below). -/
def pyIsPrintable (c : Char) : Bool :=
  (32 ≤ c.toNat && c.toNat ≤ 126) || 161 ≤ c.toNat

/-- The character filter of `sanitize_comment`: keep a character when it
is printable or is a tab or newline. -/
def keepPrintable (c : Char) : Bool :=
  pyIsPrintable c || c == Char.ofNat 10 || c == Char.ofNat 9

/-- `sanitize_comment` line `t = t.replace("\t", " ").replace("\n", " ")`. -/
def foldTabNL (c : Char) : Char :=
  if c == Char.ofNat 9 || c == Char.ofNat 10 then ' ' else c

/-- Helper for `re.sub(r"\s+", " ", t)`: the flag records whether the
previous character was whitespace (a run already replaced by one space). -/
def squeezeAux : Bool → List Char → List Char
  | _, [] => []
  | prevWS, c :: rest =>
    if pyIsSpace c then
      if prevWS then squeezeAux true rest else ' ' :: squeezeAux true rest
    else c :: squeezeAux false rest

/-- `re.sub(r"\s+", " ", t)`: every maximal whitespace run becomes one space. -/
def squeezeWS (l : List Char) : List Char := squeezeAux false l

/-- Left part of Python `str.strip`. -/
def trimLeft (l : List Char) : List Char := l.dropWhile pyIsSpace

/-- Right part of Python `str.strip`, also `str.rstrip`. -/
def trimRight (l : List Char) : List Char := (l.reverse.dropWhile pyIsSpace).reverse

/-- Python `str.strip`. -/
def pyStrip (l : List Char) : List Char := trimRight (trimLeft l)

/-- `sanitize_comment(text, max_len)` from `Spotify.py` lines 295-309:
filter printable (keeping tab/newline), fold tab/newline to spaces,
collapse whitespace runs, strip, and truncate to `max_len` with `rstrip`. -/
def sanitize_comment_max (maxLen : Nat) (text : Str) : Str :=
  let t1 := text.filter keepPrintable
  let t2 := t1.map foldTabNL
  let t3 := pyStrip (squeezeWS t2)
  if maxLen < t3.length then trimRight (t3.take maxLen) else t3

/-- `sanitize_comment` with the default `max_len = 500`. -/
def sanitize_comment (text : Str) : Str := sanitize_comment_max 500 text

/-- The error messages and column-name literals of the source. -/
def msgBlankComment : String :=
  "Komentar terdeteksi kosong. Tulis komentar singkat yang jelas atau biarkan kosong."

/-- Error message of the no-letter validation branch. -/
def msgNoLetter : String := "Komentar harus mengandung huruf (bukan hanya angka/simbol)."

/-- Error message of the too-short validation branch. -/
def msgTooShort : String := "Komentar terlalu pendek. Tambahkan sedikit supaya jelas ya."

/-- `validate_comment_if_filled(raw_text)` from `Spotify.py` lines 312-327.
`raw_text and not clean` raises; a filled comment must contain a letter and
have length at least 3.  Errors are modelled with `Except`. -/
def validate_comment_if_filled (raw : Str) : Except String Str :=
  let clean := sanitize_comment raw
  if !raw.isEmpty && clean.isEmpty then
    Except.error msgBlankComment
  else if !clean.isEmpty then
    if !(clean.any Char.isAlpha) then
      Except.error msgNoLetter
    else if clean.length < 3 then
      Except.error msgTooShort
    else Except.ok clean
  else Except.ok clean

/-- A playlist row: the columns of the shuffled subset that
`build_playlist_from_subset` reads (`track_name`, `track_artist`), plus an
id so distinct rows stay distinct. -/
structure PTrack where
  track_name : Str
  track_artist : Str
  id : Nat
deriving DecidableEq

/-- `pat` is a prefix of the second list (Python `str.startswith`). -/
def startsWithSeq : Str → Str → Bool
  | _, [] => true
  | [], _ :: _ => false
  | a :: as, p :: ps => a == p && startsWithSeq as ps

/-- `pat` occurs as a contiguous substring of the second list. -/
def containsSeq (pat : Str) : Str → Bool
  | [] => startsWithSeq [] pat
  | c :: rest => startsWithSeq (c :: rest) pat || containsSeq pat rest

/-- The processed favourite query: `fav_query.strip().lower()`. -/
def favOf (favQuery : Str) : Str := (pyStrip favQuery).map Char.toLower

/-- The characters Python `re` treats as special (metacharacters outside
character classes): dot, caret, dollar, star, plus, question mark, the two
braces, the two square brackets, backslash, pipe and the two parens. -/
def reMetachars : List Char :=
  ['.', '^', '$', '*', '+', '?', Char.ofNat 123, Char.ofNat 125,
   '[', ']', Char.ofNat 92, '|', '(', ')']

/-- A pattern free of regex metacharacters: Python `re` accepts it and
matches it as the literal substring. -/
def regexLiteral (pat : Str) : Bool :=
  pat.all (fun c => !(reMetachars.contains c))

/-- The regex engine behind `Series.str.contains` (pandas defaults to
regex matching), abstracted: compiling a pattern either raises `re.error`
(`none`) or yields a search predicate over strings.  The engine itself is
the external `re` module; the one law the embedding pins — the only
engine behavior the judged claims rely on — is that a metacharacter-free
pattern compiles and searches as literal substring containment, which is
Python `re` semantics.  Queries holding metacharacters are matched as
regexes (or raise), and the theorems below do not constrain them. -/
structure ReEngine where
  compile : Str → Option (Str → Bool)
  compile_literal : ∀ pat, regexLiteral pat = true →
    compile pat = some (fun s => containsSeq pat s)

/-- A model instance of the engine used in concrete computations: literal
patterns search literally, and every pattern holding a metacharacter
fails to compile.  The concrete theorems below run it only on literal
patterns, where it agrees with Python `re`. -/
def literalReEngine : ReEngine where
  compile := fun pat =>
    if regexLiteral pat then some (fun s => containsSeq pat s) else none
  compile_literal := by
    intro pat hp
    simp [hp]

/-- The row mask of `build_playlist_from_subset` for a compiled search:
the lowercased title or lowercased artist matches. -/
def matches_fav (search : Str → Bool) (t : PTrack) : Bool :=
  search (t.track_name.map Char.toLower) ||
  search (t.track_artist.map Char.toLower)

/-- `fav_df` of `build_playlist_from_subset` (the masked rows, in shuffled order). -/
def favMatchList (search : Str → Bool) (rows : List PTrack) : List PTrack :=
  rows.filter (matches_fav search)

/-- `other_df` of `build_playlist_from_subset` (the unmasked rows). -/
def favOtherList (search : Str → Bool) (rows : List PTrack) : List PTrack :=
  rows.filter (fun t => !(matches_fav search t))

/-- The `re.error` raised by `str.contains` on an invalid pattern. -/
def msgRegexError : String := "re.error: bad favourite-query pattern"

/-- `build_playlist_from_subset(subset, n_tracks, fav_query)` from
`Spotify.py` lines 267-289.  The unseeded `subset.sample(frac=1.0)` shuffle
is modelled by taking the shuffled rows as the argument: every theorem
below holds for every shuffle outcome.  The regex engine of
`Series.str.contains` is the `eng` parameter; its `re.error` raise on an
invalid pattern is the error branch.  With a non-blank query the source
returns `pd.concat([fav_df.head(3), other_df]).head(n_tracks)`. -/
def build_playlist_from_subset (eng : ReEngine) (rows : List PTrack) (n : Nat)
    (favQuery : Str) : Except String (List PTrack) :=
  if favQuery.isEmpty then Except.ok (rows.take n)
  else if (favOf favQuery).isEmpty then Except.ok (rows.take n)
  else
    match eng.compile (favOf favQuery) with
    | none => Except.error msgRegexError
    | some search =>
      Except.ok (((favMatchList search rows).take 3 ++ favOtherList search rows).take n)

/-- Error message shown by `main` when the filtered subset is empty. -/
def msgEmptySelection : String := "Tidak ada lagu yang cocok dengan filter tersebut."

/-- The playlist-building step of `main` (`Spotify.py` lines 665-669): an
empty filtered subset is rejected with a user-facing error, otherwise the
request is clamped to `min(n_tracks, len(subset))` and the builder runs
(whose `re.error`, if any, propagates like any uncaught exception). -/
def main_build_playlist (eng : ReEngine) (subsetShuffled : List PTrack) (nTracks : Nat)
    (favQuery : Str) : Except String (List PTrack) :=
  if subsetShuffled.isEmpty then
    Except.error msgEmptySelection
  else
    build_playlist_from_subset eng subsetShuffled (min nTracks subsetShuffled.length) favQuery

/-- The six audio features of `FEATURE_COLUMNS`, in source order. -/
structure FeatureVec where
  danceability : ℚ
  energy : ℚ
  valence : ℚ
  tempo : ℚ
  loudness : ℚ
  acousticness : ℚ
deriving DecidableEq

/-- The feature vector as a list, in the order of `FEATURE_COLUMNS`. -/
def FeatureVec.toList (v : FeatureVec) : List ℚ :=
  [v.danceability, v.energy, v.valence, v.tempo, v.loudness, v.acousticness]

/-- Squared Euclidean distance between two feature vectors.  The source
compares `np.linalg.norm(user_vec - row)` values; comparing squares is
order-equivalent because `sqrt` is strictly monotone. -/
def dist2 (u v : FeatureVec) : ℚ :=
  (List.zipWith (fun a b => (a - b) * (a - b)) u.toList v.toList).sum

/-- One iteration of the loop in `choose_cluster_by_preferences`
(`Spotify.py` lines 256-262): update the best pair when the distance is
strictly smaller (ties keep the earlier profile). -/
def choose_step (user : FeatureVec) (acc : Option (Int × ℚ)) (p : Int × FeatureVec) :
    Option (Int × ℚ) :=
  match acc with
  | none => some (p.1, dist2 user p.2)
  | some (bl, bd) =>
    if dist2 user p.2 < bd then some (p.1, dist2 user p.2) else some (bl, bd)

/-- `choose_cluster_by_preferences(pref_vector, cluster_means_norm)` from
`Spotify.py` lines 253-264: iterate the profile table in order, keep the
first profile of minimal distance, return its label (`none` only for an
empty table, where the source would crash on `int(None)`). -/
def choose_cluster_by_preferences (user : FeatureVec) (profiles : List (Int × FeatureVec)) :
    Option Int :=
  (profiles.foldl (choose_step user) none).map Prod.fst

/-- A catalog row as read by `get_cluster_mapping_by_valence`: the
`cluster` label and the raw `valence` value. -/
structure VRow where
  cluster : Int
  valence : ℚ
deriving DecidableEq

/-- Insert into an ascending duplicate-free list of cluster labels (model
of the sorted distinct group keys produced by `df.groupby("cluster")`). -/
def insertClusterKey (x : Int) : List Int → List Int
  | [] => [x]
  | y :: ys =>
    if x < y then x :: y :: ys
    else if x = y then y :: ys
    else y :: insertClusterKey x ys

/-- The distinct cluster labels of a catalog, ascending (pandas groupby keys). -/
def clustersOf (df : List VRow) : List Int :=
  df.foldr (fun r acc => insertClusterKey r.cluster acc) []

/-- Mean `valence` of one cluster group (`groupby("cluster")["valence"].mean()`). -/
def meanValence (df : List VRow) (c : Int) : ℚ :=
  let xs := (df.filter (fun r => r.cluster == c)).map VRow.valence
  xs.sum / (xs.length : ℚ)

/-- Descending order on (label, mean-valence) pairs used by
`sort_values(ascending=False)`. -/
def valGE (a b : Int × ℚ) : Prop := b.2 ≤ a.2

instance : DecidableRel valGE := fun a b => inferInstanceAs (Decidable (b.2 ≤ a.2))

instance : IsTotal (Int × ℚ) valGE := ⟨fun a b => le_total b.2 a.2⟩

instance : IsTrans (Int × ℚ) valGE := ⟨fun _ _ _ h1 h2 => le_trans h2 h1⟩

/-- `get_cluster_mapping_by_valence(df)` from `Spotify.py` lines 228-232:
sort the per-cluster mean valences descending; `happy` is the first index,
`sad` the last (`none` only for an empty catalog, where the source would
raise `IndexError`).  The model sorts with insertion sort; the claims
depend only on the sort order, not on tie placement. -/
def get_cluster_mapping_by_valence (df : List VRow) : Option (Int × Int) :=
  let pairs := (clustersOf df).map (fun c => (c, meanValence df c))
  match List.insertionSort valGE pairs with
  | [] => none
  | h :: t => some (h.1, ((h :: t).getLastD h).1)

/-- A tabular file as read by `load_data`: named columns of optional cells
(`none` models a missing/NaN cell, and the all-`none` synthesized column). -/
abbrev Frame := List (String × List (Option String))

/-- Association-list lookup (Python `dict` / column access). -/
def lookupAssoc {α β : Type} [DecidableEq α] : List (α × β) → α → Option β
  | [], _ => none
  | (k, v) :: rest, key => if key = k then some v else lookupAssoc rest key

/-- `c in df.columns`. -/
def hasCol (df : Frame) (c : String) : Bool :=
  df.any (fun p => decide (p.1 = c))

/-- `df[c]` (defaulting to an empty column; `load_data` only reads columns
it has checked for). -/
def getCol (df : Frame) (c : String) : List (Option String) :=
  (lookupAssoc df c).getD []

/-- Adding a new column `df[c] = cells`. -/
def addCol (df : Frame) (c : String) (cells : List (Option String)) : Frame :=
  df ++ [(c, cells)]

/-- The row count of a frame (pandas broadcasts scalar assignment to it). -/
def frameRows (df : Frame) : Nat :=
  match df with
  | [] => 0
  | (_, col) :: _ => col.length

/-- `FEATURE_COLUMNS` from `Spotify.py` lines 28-35. -/
def FEATURE_COLUMNS : List String :=
  ["danceability", "energy", "valence", "tempo", "loudness", "acousticness"]

/-- The link base used to synthesize `spotify_url`. -/
def spotifyUrlBase : String := "https://open.spotify.com/track/"

/-- The separator of `uri` values. -/
def colonSep : String := ":"

/-- The last colon-delimited segment of a uri string. -/
def lastColonSegment (s : String) : String :=
  (s.splitOn colonSep).getLastD s

/-- Column-name literals used by `load_data`. -/
def colCluster : String := "cluster"

/-- The synthesized playable-link column name. -/
def colSpotifyUrl : String := "spotify_url"

/-- The identifier column name. -/
def colTrackId : String := "track_id"

/-- The uri column name. -/
def colUri : String := "uri"

/-- Error message for a missing cluster column. -/
def msgMissingCluster : String := "Dataset harus memiliki kolom cluster."

/-- Error message for missing audio-feature columns. -/
def msgMissingFeatures : String := "Dataset harus memiliki kolom fitur audio."

/-- `load_data(path)` from `Spotify.py` lines 204-225, with the parsed file
given as a `Frame`: require the `cluster` column and all of
`FEATURE_COLUMNS`, then synthesize `spotify_url` from `track_id`, else
from the last colon segment of `uri`, else as an unset (all-`none`)
column.  `ValueError` is modelled as `Except.error`. -/
def load_data (df : Frame) : Except String Frame :=
  if !hasCol df colCluster then
    Except.error msgMissingCluster
  else if !((FEATURE_COLUMNS.filter (fun c => !hasCol df c)).isEmpty) then
    Except.error msgMissingFeatures
  else if hasCol df colSpotifyUrl then Except.ok df
  else if hasCol df colTrackId then
    Except.ok (addCol df colSpotifyUrl
      ((getCol df colTrackId).map (Option.map (fun s => spotifyUrlBase ++ s))))
  else if hasCol df colUri then
    Except.ok (addCol df colSpotifyUrl
      ((getCol df colUri).map (Option.map (fun s => spotifyUrlBase ++ lastColonSegment s))))
  else Except.ok (addCol df colSpotifyUrl (List.replicate (frameRows df) none))

/-- `normalize_country_value(x)` from `Spotify.py` lines 103-106: `none`
(NaN/None cell) becomes empty, otherwise the value is stripped. -/
def normalize_country_value (x : Option Str) : Str :=
  match x with
  | none => []
  | some s => pyStrip s

/-- `looks_like_iso2(code)` from `Spotify.py` lines 109-110. -/
def looks_like_iso2 (code : Str) : Bool :=
  code.length == 2 && (!code.isEmpty && code.all Char.isAlpha)

/-- Python `str.title` (approximated over cased = alphabetic characters):
the first letter of each word is uppercased, the rest lowercased. -/
def pyTitleAux : Bool → List Char → List Char
  | _, [] => []
  | prevCased, c :: rest =>
    (if prevCased then c.toLower else c.toUpper) :: pyTitleAux c.isAlpha rest

/-- Python `str.title`. -/
def pyTitle (s : Str) : Str := pyTitleAux false s

/-- `COUNTRY_NAME_MAP` from `Spotify.py` lines 38-87 (ISO2 → display name). -/
def COUNTRY_NAME_MAP : List (Str × Str) :=
  [("ID".data, "Indonesia".data), ("US".data, "Amerika Serikat".data),
   ("GB".data, "Inggris".data), ("UK".data, "Inggris".data),
   ("AE".data, "Uni Emirat Arab".data), ("AR".data, "Argentina".data),
   ("AT".data, "Austria".data), ("AU".data, "Australia".data),
   ("BE".data, "Belgia".data), ("BR".data, "Brasil".data),
   ("CA".data, "Kanada".data), ("CH".data, "Swiss".data),
   ("CN".data, "China".data), ("CZ".data, "Ceko".data),
   ("DE".data, "Jerman".data), ("DK".data, "Denmark".data),
   ("EG".data, "Mesir".data), ("ES".data, "Spanyol".data),
   ("FI".data, "Finlandia".data), ("FR".data, "Prancis".data),
   ("GR".data, "Yunani".data), ("HK".data, "Hong Kong".data),
   ("HU".data, "Hungaria".data), ("IE".data, "Irlandia".data),
   ("IL".data, "Israel".data), ("IN".data, "India".data),
   ("IT".data, "Italia".data), ("JP".data, "Jepang".data),
   ("KR".data, "Korea Selatan".data), ("MX".data, "Meksiko".data),
   ("MY".data, "Malaysia".data), ("NL".data, "Belanda".data),
   ("NO".data, "Norwegia".data), ("NZ".data, "Selandia Baru".data),
   ("PH".data, "Filipina".data), ("PL".data, "Polandia".data),
   ("PT".data, "Portugal".data), ("RO".data, "Rumania".data),
   ("RU".data, "Rusia".data), ("SA".data, "Arab Saudi".data),
   ("SE".data, "Swedia".data), ("SG".data, "Singapura".data),
   ("TH".data, "Thailand".data), ("TR".data, "Turki".data),
   ("TW".data, "Taiwan".data), ("UA".data, "Ukraina".data),
   ("VN".data, "Vietnam".data), ("ZA".data, "Afrika Selatan".data)]

/-- The label of the no-preference option. -/
def strBebas : Str := "Bebas".data

/-- The label of the unresolved bucket option. -/
def strLainnya : Str := "Lainnya".data

/-- `country_value_to_display(raw_value)` from `Spotify.py` lines 113-133.
The optional `pycountry` lookup (`_try_pycountry_name`, an external
database wrapped in try/except) is a parameter `pyc`; the theorems hold
for every resolver.  An unresolved ISO2 code yields the empty string (it
is folded into the `Lainnya` bucket, never shown as a code). -/
def country_value_to_display (pyc : Str → Option Str) (raw_value : Option Str) : Str :=
  let raw := normalize_country_value raw_value
  if raw.isEmpty then []
  else if looks_like_iso2 raw then
    let code := raw.map Char.toUpper
    match pyc code with
    | some name => name
    | none =>
      match lookupAssoc COUNTRY_NAME_MAP code with
      | some name => name
      | none => []
  else if 2 < raw.length then pyTitle raw else raw

/-- Strict lexicographic code-point order on strings (Python `sorted`). -/
def strLt : Str → Str → Bool
  | [], [] => false
  | [], _ :: _ => true
  | _ :: _, [] => false
  | a :: as, b :: bs => a < b || (a == b && strLt as bs)

/-- Insert into a sorted duplicate-free string list (model of
`sorted({...})` over the normalized country values). -/
def insertStrSorted (x : Str) : List Str → List Str
  | [] => [x]
  | y :: ys =>
    if strLt x y then x :: y :: ys
    else if x = y then y :: ys
    else y :: insertStrSorted x ys

/-- `sorted({v for v in raw_values if v})`. -/
def sortedDistinct (l : List Str) : List Str :=
  l.foldr insertStrSorted []

/-- Update-or-insert for the `used_count` dict in `build_country_options`. -/
def setAssoc : List (Str × Nat) → Str → Nat → List (Str × Nat)
  | [], k, v => [(k, v)]
  | (k2, v2) :: rest, k, v =>
    if k = k2 then (k, v) :: rest else (k2, v2) :: setAssoc rest k v

/-- The duplicate-suffix label `f"{display} ({count})"`. -/
def mkLabel (display : Str) (k : Nat) : Str :=
  display ++ (" (").data ++ (Nat.repr k).data ++ (")").data

/-- The loop state of `build_country_options`: the option labels so far,
the label→raw mapping, the `used_count` dict and the unresolved raws. -/
structure OptState where
  options : List Str
  display_to_raw : List (Str × Option Str)
  used_count : List (Str × Nat)
  unknown : List Str
deriving DecidableEq

/-- One iteration of the `for raw in raw_values` loop of
`build_country_options` (`Spotify.py` lines 159-167). -/
def optStep (pyc : Str → Option Str) (st : OptState) (raw : Str) : OptState :=
  let display := country_value_to_display pyc (some raw)
  if display.isEmpty then { st with unknown := st.unknown ++ [raw] }
  else
    let k := (lookupAssoc st.used_count display).getD 0 + 1
    let label := if k = 1 then display else mkLabel display k
    { st with
      options := st.options ++ [label]
      display_to_raw := st.display_to_raw ++ [(label, some raw)]
      used_count := setAssoc st.used_count display k }

/-- `build_country_options(df)` from `Spotify.py` lines 136-173.  The
`country` column is `none` when absent, otherwise the list of its cells
(`none` cells model NaN, removed by `dropna`).  Returns the option labels
and the label→raw mapping ("Lainnya" maps to `none`). -/
def build_country_options (pyc : Str → Option Str) (col : Option (List (Option Str))) :
    List Str × List (Str × Option Str) :=
  match col with
  | none => ([strBebas], [])
  | some cells =>
    let raws := sortedDistinct
      (((cells.filterMap id).map pyStrip).filter (fun v => !v.isEmpty))
    let st := raws.foldl (optStep pyc) ⟨[strBebas], [], [], []⟩
    if st.unknown.isEmpty then (st.options, st.display_to_raw)
    else (st.options ++ [strLainnya], st.display_to_raw ++ [(strLainnya, none)])

/-- A subset row as read by the country filter in `main`: the raw
`country` cell plus an id keeping rows distinct. -/
structure CTrack where
  country : Option Str
  id : Nat
deriving DecidableEq

/-- `is_unknown_iso2(v)` from `Spotify.py` lines 658-660: a two-letter
alphabetic value whose display name cannot be resolved. -/
def is_unknown_iso2 (pyc : Str → Option Str) (v : Option Str) : Bool :=
  let raw := normalize_country_value v
  looks_like_iso2 raw && (country_value_to_display pyc (some raw)).isEmpty

/-- The country-filter step of `main` (`Spotify.py` lines 653-663):
`Bebas` (or a missing country column) applies no filter; a mapping value
of `none` — the `Lainnya` sentinel, or an absent key, both giving
`dict.get(...) is None` — keeps the unresolved-ISO2 rows; a non-empty raw
value keeps the rows whose normalized country equals it exactly. -/
def apply_country_filter (pyc : Str → Option Str) (displayToRaw : List (Str × Option Str))
    (countryPref : Str) (hasCountryCol : Bool) (subset : List CTrack) : List CTrack :=
  if countryPref = strBebas ∨ hasCountryCol = false then subset
  else
    match (lookupAssoc displayToRaw countryPref).join with
    | none => subset.filter (fun t => is_unknown_iso2 pyc t.country)
    | some raw =>
      if raw.isEmpty then subset
      else subset.filter (fun t => decide (normalize_country_value t.country = raw))

/-- The feedback-store state: the local JSONL log, the rows the remote
sheet append was attempted for, and the rows it actually holds.  Rows are
the serialized records; their content is irrelevant to the claims. -/
structure SinkState where
  localLog : List String
  remoteAttempts : List String
  remoteRows : List String
deriving DecidableEq

/-- The injected local-write failure message. -/
def msgLocalFail : String := "local jsonl write failed"

/-- The injected remote-append failure message. -/
def msgRemoteFail : String := "remote sheet append failed"

/-- `save_feedback_jsonl_local(row)` from `Spotify.py` lines 330-335: an
append to the local log followed by flush and fsync.  The write either
reaches stable storage or raises; `localFails` injects the failure and the
raised exception is the returned `some` message. -/
def save_feedback_jsonl_local (localFails : Bool) (row : String) (s : SinkState) :
    SinkState × Option String :=
  if localFails then (s, some msgLocalFail)
  else ({ s with localLog := s.localLog ++ [row] }, none)

/-- `save_feedback_to_google_sheet(row)` from `Spotify.py` lines 338-364:
the append is attempted (credential lookup, authorization, `append_row`)
and either succeeds or raises; `remoteFails` injects the failure. -/
def save_feedback_to_google_sheet (remoteFails : Bool) (row : String) (s : SinkState) :
    SinkState × Option String :=
  let s1 := { s with remoteAttempts := s.remoteAttempts ++ [row] }
  if remoteFails then (s1, some msgRemoteFail)
  else ({ s1 with remoteRows := s1.remoteRows ++ [row] }, none)

/-- `save_feedback_final(row)` from `Spotify.py` lines 367-376: the local
write runs first and its failure propagates (`main` calls this without a
handler); only after local success is the remote append attempted, inside
`try/except Exception: pass`, so its failure is swallowed. -/
def save_feedback_final (localFails remoteFails : Bool) (row : String) (s : SinkState) :
    SinkState × Option String :=
  match save_feedback_jsonl_local localFails row s with
  | (s1, some e) => (s1, some e)
  | (s1, none) =>
    match save_feedback_to_google_sheet remoteFails row s1 with
    | (s2, some _) => (s2, none)
    | (s2, none) => (s2, none)

/-- No two adjacent whitespace characters (the shape of a string whose
whitespace runs have been collapsed).  The default char is not whitespace,
so the empty-tail case is vacuous. -/
def noAdjWS : List Char → Bool
  | [] => true
  | a :: rest => (!(pyIsSpace a && pyIsSpace (rest.headD 'a'))) && noAdjWS rest

/-- The all-whitespace raw comment of the blank-comment claim. -/
def threeSpaces : Str := [' ', ' ', ' ']

/-- A five-match pool of twenty shuffled rows: rows 0-4 match the query
(title abc), rows 5-19 do not. -/
def cexPool : List PTrack :=
  ((List.range 5).map (fun i => PTrack.mk ['a', 'b', 'c'] [] i)) ++
  ((List.range 15).map (fun i => PTrack.mk ['z'] ['q'] (i + 5)))

/-- The favourite query of the counterexample pool. -/
def cexFavQuery : Str := ['a', 'b', 'c']

/-- The fourth query match of the counterexample pool (shuffled position 3). -/
def cexFourthMatch : PTrack := PTrack.mk ['a', 'b', 'c'] [] 3

/-- The literal search the engine law yields for the counterexample query. -/
def cexSearch : Str → Bool := fun s => containsSeq (favOf cexFavQuery) s

/-- The playlist the builder returns on the counterexample pool (18 rows:
first 3 matches then the 15 non-matches). -/
def cexOutput : List PTrack :=
  ((favMatchList cexSearch cexPool).take 3 ++ favOtherList cexSearch cexPool).take 20

/-- Two distinct shuffled rows for the favourite-promotion witness. -/
def favTestRows : List PTrack :=
  [PTrack.mk ['a', 'b'] [] 0, PTrack.mk ['z'] [] 1]

/-- The witness favourite query. -/
def favTestQuery : Str := ['a']

/-- A singleton shuffled subset for the length-bound witness. -/
def lenTestRows : List PTrack := [PTrack.mk [] [] 0]

/-- The preference vector of the nearest-cluster witness. -/
def testUserVec : FeatureVec := ⟨0, 0, 0, 0, 0, 0⟩

/-- A two-profile table for the nearest-cluster witness: cluster 7 is nearer. -/
def testProfiles : List (Int × FeatureVec) :=
  [(5, ⟨1, 1, 1, 1, 1, 1⟩), (7, ⟨0, 0, 0, 0, 0, 0⟩)]

/-- The three-cluster catalog of the valence-mapping witness (mean
valences 4/5, 1/2, 1/5 for clusters 1, 2, 3). -/
def valTestRows : List VRow := [⟨1, 4/5⟩, ⟨2, 1/2⟩, ⟨3, 1/5⟩]

/-- A frame with the full required schema, a `track_id` column and no
`spotify_url` column, for the loader witness. -/
def loadTestFrame : Frame :=
  [(colCluster, [some ("0")]), (("danceability"), [some ("1")]),
   (("energy"), [some ("1")]), (("valence"), [some ("1")]),
   (("tempo"), [some ("1")]), (("loudness"), [some ("1")]),
   (("acousticness"), [some ("1")]), (colTrackId, [some ("abc123")])]

/-- The resolver modelling an absent `pycountry` installation
(`_try_pycountry_name` returns None on any failure). -/
def pycNone : Str → Option Str := fun _ => none

/-- The raw uppercase country value of the case-sensitivity test. -/
def rawUS : Str := ("US").data

/-- The raw lowercase country value of the case-sensitivity test. -/
def rawUSLower : Str := ("us").data

/-- The display label both raw values resolve to. -/
def labelAmerikaSerikat : Str := ("Amerika Serikat").data

/-- The mapping built by `build_country_options` from a catalog holding
the raw country values US and us. -/
def countryMapTest : List (Str × Option Str) :=
  (build_country_options pycNone (some [some rawUS, some rawUSLower])).2

/-- The filtered subset of the case-sensitivity test: one row per case
variant. -/
def countryTestSubset : List CTrack :=
  [CTrack.mk (some rawUS) 0, CTrack.mk (some rawUSLower) 1]

/-- The serialized feedback row of the persistence witness. -/
def row0 : String := "feedback-row"

/-- The empty initial store of the persistence witness. -/
def sink0 : SinkState := ⟨[], [], []⟩

/-! ## Shared list lemmas -/

theorem filter_partition_length {α : Type} (p : α → Bool) (l : List α) :
    (l.filter p).length + (l.filter (fun a => !(p a))).length = l.length := by
  induction l with
  | nil => rfl
  | cons a t ih =>
    cases h : p a <;> simp [List.filter_cons, h] <;> omega

theorem take_ne_nil_of_ne_nil {α : Type} (l : List α) (n : Nat) (h : l ≠ []) (hn : 1 ≤ n) :
    l.take n ≠ [] := by
  cases l with
  | nil => exact absurd rfl h
  | cons a t =>
    cases n with
    | zero => omega
    | succ m => simp

theorem getLastD_mem {α : Type} : ∀ (l : List α) (d : α), l ≠ [] → l.getLastD d ∈ l
  | [], _, h => absurd rfl h
  | [a], _, _ => by simp [List.getLastD]
  | a :: b :: t, d, _ => by
    have := getLastD_mem (b :: t) a (by simp)
    simp only [List.getLastD]
    exact List.mem_cons_of_mem a this

/-! ## C2: comment validation on an all-whitespace raw comment -/

/-- C2 counterexample: the claim says the raw comment of three spaces
passes validation and returns the empty string; on the code the raw text
is truthy while the sanitized text is empty, so `validate_comment_if_filled`
raises the blank-comment `ValueError` instead. -/
theorem validate_comment_whitespace_cex :
    validate_comment_if_filled threeSpaces = Except.error msgBlankComment := by
  rfl

/-- C2 (amended): a truly empty raw comment is valid and persists as the
empty string, but an all-whitespace raw comment (non-empty raw text whose
sanitized form is empty) is rejected with the blank-comment error. -/
theorem validate_comment_blank_paths :
    validate_comment_if_filled [] = Except.ok [] ∧
    validate_comment_if_filled threeSpaces = Except.error msgBlankComment :=
  ⟨rfl, rfl⟩

/-! ## C10: no country column disables the country filter -/

/-- C10: on a catalog with no country column, `build_country_options`
returns exactly the single no-preference option and an empty
display-to-raw mapping, for every resolver. -/
theorem build_country_options_no_country_column (pyc : Str → Option Str) :
    build_country_options pyc none = ([strBebas], []) := rfl

/-! ## C7: two-tier feedback persistence -/

/-- C7: `save_feedback_final` appends to the local log first and a local
failure propagates with the remote append never attempted; after local
success the record is in the local log, the remote append is attempted,
and any remote failure is swallowed (the result error is always `none`). -/
theorem save_feedback_final_spec (lf rf : Bool) (row : String) (s : SinkState) :
    (lf = true →
      save_feedback_final lf rf row s = (s, some msgLocalFail) ∧
      (save_feedback_final lf rf row s).1.remoteAttempts = s.remoteAttempts) ∧
    (lf = false →
      (save_feedback_final lf rf row s).2 = none ∧
      (save_feedback_final lf rf row s).1.localLog = s.localLog ++ [row] ∧
      (save_feedback_final lf rf row s).1.remoteAttempts = s.remoteAttempts ++ [row]) := by
  cases lf <;> cases rf <;>
    simp [save_feedback_final, save_feedback_jsonl_local, save_feedback_to_google_sheet]

/-- C7 witness: concrete runs of both tiers from the empty store. -/
theorem save_feedback_final_spec_witness :
    (save_feedback_final true true row0 sink0 = (sink0, some msgLocalFail) ∧
      (save_feedback_final true true row0 sink0).1.remoteAttempts = sink0.remoteAttempts) ∧
    ((save_feedback_final false true row0 sink0).2 = none ∧
      (save_feedback_final false true row0 sink0).1.localLog = sink0.localLog ++ [row0] ∧
      (save_feedback_final false true row0 sink0).1.remoteAttempts =
        sink0.remoteAttempts ++ [row0]) :=
  ⟨(save_feedback_final_spec true true row0 sink0).1 rfl,
   (save_feedback_final_spec false true row0 sink0).2 rfl⟩

/-! ## C5: playlist length bounds and the empty-subset rejection -/

theorem fav_partition_length (search : Str → Bool) (rows : List PTrack) :
    (favMatchList search rows).length + (favOtherList search rows).length = rows.length :=
  filter_partition_length _ rows

/-- C5: every playlist the builder returns has length at most
`min(requested, subset size)` and is non-empty whenever the shuffled
subset is non-empty and at least one track is requested; a blank or
metacharacter-free query always returns a playlist (the `re.error` of an
invalid regex pattern is the only non-return path, and then nothing is
returned at all); `main` rejects an empty filtered subset with the
user-facing error before building, otherwise clamping the request and
running the builder. -/
theorem build_playlist_length_spec (eng : ReEngine) (rows : List PTrack) (n : Nat)
    (favQuery : Str) :
    (∀ pl, build_playlist_from_subset eng rows n favQuery = Except.ok pl →
      pl.length ≤ min n rows.length ∧ (rows ≠ [] → 1 ≤ n → pl ≠ [])) ∧
    (favQuery.isEmpty = true ∨ regexLiteral (favOf favQuery) = true →
      ∃ pl, build_playlist_from_subset eng rows n favQuery = Except.ok pl) ∧
    (main_build_playlist eng [] n favQuery = Except.error msgEmptySelection) ∧
    (rows ≠ [] → main_build_playlist eng rows n favQuery =
      build_playlist_from_subset eng rows (min n rows.length) favQuery) := by
  refine ⟨?_, ?_, by simp [main_build_playlist], ?_⟩
  · intro pl hpl
    simp only [build_playlist_from_subset] at hpl
    by_cases h1 : favQuery.isEmpty
    · rw [if_pos h1] at hpl
      have hpl2 : rows.take n = pl := by simpa using hpl
      subst hpl2
      exact ⟨by simp [List.length_take], fun hne hn => take_ne_nil_of_ne_nil rows n hne hn⟩
    · rw [if_neg h1] at hpl
      by_cases h2 : (favOf favQuery).isEmpty
      · rw [if_pos h2] at hpl
        have hpl2 : rows.take n = pl := by simpa using hpl
        subst hpl2
        exact ⟨by simp [List.length_take], fun hne hn => take_ne_nil_of_ne_nil rows n hne hn⟩
      · rw [if_neg h2] at hpl
        cases hc : eng.compile (favOf favQuery) with
        | none => rw [hc] at hpl; simp at hpl
        | some search =>
          rw [hc] at hpl
          have hp := fav_partition_length search rows
          have hpl2 : ((favMatchList search rows).take 3 ++ favOtherList search rows).take n
              = pl := by simpa using hpl
          subst hpl2
          constructor
          · simp only [List.length_take, List.length_append]
            omega
          · intro hne hn
            apply take_ne_nil_of_ne_nil _ n _ hn
            cases hm : favMatchList search rows with
            | nil =>
              intro hcontra
              have ho : favOtherList search rows = [] := by simpa using hcontra
              rw [hm, ho] at hp
              simp only [List.length_nil] at hp
              exact hne (List.length_eq_zero.mp (by omega))
            | cons a t => simp [hm]
  · intro hq
    by_cases h1 : favQuery.isEmpty
    · exact ⟨rows.take n, by simp [build_playlist_from_subset, h1]⟩
    · by_cases h2 : (favOf favQuery).isEmpty
      · exact ⟨rows.take n, by simp [build_playlist_from_subset, h1, h2]⟩
      · rcases hq with hq | hq
        · exact absurd hq h1
        · refine ⟨((favMatchList (fun s => containsSeq (favOf favQuery) s) rows).take 3 ++
            favOtherList (fun s => containsSeq (favOf favQuery) s) rows).take n, ?_⟩
          simp only [build_playlist_from_subset]
          rw [if_neg h1, if_neg h2, eng.compile_literal _ hq]
  · intro hne
    have hfalse : rows.isEmpty = false := by
      cases rows with
      | nil => exact absurd rfl hne
      | cons a t => rfl
    simp [main_build_playlist, hfalse]

/-- C5 witness: a one-row subset, five requested tracks, a blank query. -/
theorem build_playlist_length_spec_witness :
    build_playlist_from_subset literalReEngine lenTestRows 5 [] = Except.ok lenTestRows ∧
    lenTestRows.length ≤ min 5 lenTestRows.length ∧
    lenTestRows ≠ [] := by
  have hok : build_playlist_from_subset literalReEngine lenTestRows 5 [] =
      Except.ok lenTestRows := by decide
  have h := (build_playlist_length_spec literalReEngine lenTestRows 5 []).1 lenTestRows hok
  exact ⟨hok, h.1, h.2 (by decide) (by omega)⟩

/-! ## C1: favourite-query promotion (matches beyond the first 3) -/

/-- C1 counterexample: in a shuffled pool of 20 rows with exactly 5
matches of a metacharacter-free query (where the regex match of
`str.contains` is literal substring match) and 20 tracks requested, the
fourth match is absent from the returned playlist — the source keeps
`fav_df.head(3)` and concatenates only `other_df` (the non-matching
rows), so matches beyond the first 3 are dropped rather than staying in
their shuffled positions. -/
theorem build_playlist_drops_late_matches_cex :
    cexPool.length = 20 ∧
    regexLiteral (favOf cexFavQuery) = true ∧
    (favMatchList cexSearch cexPool).length = 5 ∧
    cexFourthMatch ∈ cexPool ∧
    matches_fav cexSearch cexFourthMatch = true ∧
    build_playlist_from_subset literalReEngine cexPool 20 cexFavQuery =
      Except.ok cexOutput ∧
    cexFourthMatch ∉ cexOutput := by
  decide

/-- C1 (amended): with a non-blank favourite query free of regex
metacharacters — `str.contains` runs in regex mode, so exactly these
queries are matched as literal case-insensitive substrings of title and
artist — the builder returns the first 3 matches (in shuffled order)
prepended to the non-matching rows, truncated to the request; matches
beyond the first 3 are dropped from the output; when at least 3 tracks
are requested and at least 3 rows match, the first 3 output positions are
exactly the first 3 matches. -/
theorem build_playlist_fav_spec (eng : ReEngine) (rows : List PTrack) (n : Nat)
    (favQuery : Str)
    (h1 : favQuery.isEmpty = false) (h2 : (favOf favQuery).isEmpty = false)
    (h3 : regexLiteral (favOf favQuery) = true) (h4 : rows.Nodup) :
    build_playlist_from_subset eng rows n favQuery = Except.ok
      (((favMatchList (fun s => containsSeq (favOf favQuery) s) rows).take 3 ++
        favOtherList (fun s => containsSeq (favOf favQuery) s) rows).take n) ∧
    (∀ t ∈ (favMatchList (fun s => containsSeq (favOf favQuery) s) rows).drop 3,
      t ∉ (((favMatchList (fun s => containsSeq (favOf favQuery) s) rows).take 3 ++
        favOtherList (fun s => containsSeq (favOf favQuery) s) rows).take n)) ∧
    (3 ≤ n → 3 ≤ (favMatchList (fun s => containsSeq (favOf favQuery) s) rows).length →
      ((((favMatchList (fun s => containsSeq (favOf favQuery) s) rows).take 3 ++
        favOtherList (fun s => containsSeq (favOf favQuery) s) rows).take n).take 3 =
        (favMatchList (fun s => containsSeq (favOf favQuery) s) rows).take 3)) := by
  refine ⟨?_, ?_, ?_⟩
  · simp only [build_playlist_from_subset]
    rw [if_neg (by simp [h1]), if_neg (by simp [h2]), eng.compile_literal _ h3]
  · intro t ht hmem
    have hmem2 := List.mem_of_mem_take hmem
    have htm : t ∈ favMatchList (fun s => containsSeq (favOf favQuery) s) rows :=
      List.mem_of_mem_drop ht
    have htmatch : matches_fav (fun s => containsSeq (favOf favQuery) s) t = true :=
      (List.mem_filter.mp htm).2
    rcases List.mem_append.mp hmem2 with hA | hB
    · have hnodup :
          ((favMatchList (fun s => containsSeq (favOf favQuery) s) rows).take 3 ++
            (favMatchList (fun s => containsSeq (favOf favQuery) s) rows).drop 3).Nodup := by
        rw [List.take_append_drop]
        exact h4.filter _
      exact List.disjoint_of_nodup_append hnodup hA ht
    · have hother := (List.mem_filter.mp hB).2
      simp [htmatch] at hother
  · intro hn hm
    rw [List.take_take]
    have hmin : min 3 n = 3 := by omega
    rw [hmin]
    have hlen3 :
        3 ≤ ((favMatchList (fun s => containsSeq (favOf favQuery) s) rows).take 3).length := by
      simp [List.length_take]
      omega
    rw [List.take_append_of_le_length hlen3]
    simp [List.take_take]

/-- C1 witness: a two-row pool, one match, a metacharacter-free query. -/
theorem build_playlist_fav_spec_witness :
    favTestQuery.isEmpty = false ∧ (favOf favTestQuery).isEmpty = false ∧
    regexLiteral (favOf favTestQuery) = true ∧ favTestRows.Nodup ∧
    (build_playlist_from_subset literalReEngine favTestRows 5 favTestQuery = Except.ok
      (((favMatchList (fun s => containsSeq (favOf favTestQuery) s) favTestRows).take 3 ++
        favOtherList (fun s => containsSeq (favOf favTestQuery) s) favTestRows).take 5) ∧
    (∀ t ∈ (favMatchList (fun s => containsSeq (favOf favTestQuery) s) favTestRows).drop 3,
      t ∉ (((favMatchList (fun s => containsSeq (favOf favTestQuery) s) favTestRows).take 3 ++
        favOtherList (fun s => containsSeq (favOf favTestQuery) s) favTestRows).take 5)) ∧
    (3 ≤ 5 →
      3 ≤ (favMatchList (fun s => containsSeq (favOf favTestQuery) s) favTestRows).length →
      ((((favMatchList (fun s => containsSeq (favOf favTestQuery) s) favTestRows).take 3 ++
        favOtherList (fun s => containsSeq (favOf favTestQuery) s) favTestRows).take 5).take 3 =
        (favMatchList (fun s => containsSeq (favOf favTestQuery) s) favTestRows).take 3))) :=
  ⟨by decide, by decide, by decide, by decide,
   build_playlist_fav_spec literalReEngine favTestRows 5 favTestQuery
     (by decide) (by decide) (by decide) (by decide)⟩

/-! ## C3: nearest-cluster selection -/

theorem choose_fold_characterization (user : FeatureVec) (l : List (Int × FeatureVec)) :
    ∀ (bl : Int) (bd : ℚ),
      (l.foldl (choose_step user) (some (bl, bd)) = some (bl, bd) ∧
        ∀ q ∈ l, bd ≤ dist2 user q.2) ∨
      (∃ pre p post, l = pre ++ p :: post ∧
        l.foldl (choose_step user) (some (bl, bd)) = some (p.1, dist2 user p.2) ∧
        dist2 user p.2 < bd ∧
        (∀ q ∈ pre, dist2 user p.2 < dist2 user q.2) ∧
        (∀ q ∈ l, dist2 user p.2 ≤ dist2 user q.2)) := by
  induction l with
  | nil =>
    intro bl bd
    left
    exact ⟨rfl, by simp⟩
  | cons x rest ih =>
    intro bl bd
    by_cases hx : dist2 user x.2 < bd
    · have hstep : (x :: rest).foldl (choose_step user) (some (bl, bd)) =
          rest.foldl (choose_step user) (some (x.1, dist2 user x.2)) := by
        simp [List.foldl_cons, choose_step, hx]
      rcases ih x.1 (dist2 user x.2) with ⟨heq, hall⟩ | ⟨pre, p, post, hl, heq, hlt, hpre, hall⟩
      · right
        refine ⟨[], x, rest, by simp, by rw [hstep, heq], hx, by simp, ?_⟩
        intro q hq
        rcases List.mem_cons.mp hq with rfl | hq2
        · exact le_refl _
        · exact hall q hq2
      · right
        refine ⟨x :: pre, p, post, by rw [hl, List.cons_append], by rw [hstep, heq],
          lt_trans hlt hx, ?_, ?_⟩
        · intro q hq
          rcases List.mem_cons.mp hq with rfl | hq2
          · exact hlt
          · exact hpre q hq2
        · intro q hq
          rcases List.mem_cons.mp hq with rfl | hq2
          · exact le_of_lt hlt
          · exact hall q (hl ▸ hq2)
    · have hstep : (x :: rest).foldl (choose_step user) (some (bl, bd)) =
          rest.foldl (choose_step user) (some (bl, bd)) := by
        simp [List.foldl_cons, choose_step, hx]
      rcases ih bl bd with ⟨heq, hall⟩ | ⟨pre, p, post, hl, heq, hlt, hpre, hall⟩
      · left
        refine ⟨by rw [hstep, heq], ?_⟩
        intro q hq
        rcases List.mem_cons.mp hq with rfl | hq2
        · exact not_lt.mp hx
        · exact hall q hq2
      · right
        refine ⟨x :: pre, p, post, by rw [hl, List.cons_append], by rw [hstep, heq], hlt, ?_, ?_⟩
        · intro q hq
          rcases List.mem_cons.mp hq with rfl | hq2
          · exact lt_of_lt_of_le hlt (not_lt.mp hx)
          · exact hpre q hq2
        · intro q hq
          rcases List.mem_cons.mp hq with rfl | hq2
          · exact le_trans (le_of_lt hlt) (not_lt.mp hx)
          · exact hall q (hl ▸ hq2)

/-- C3: on a non-empty profile table, `choose_cluster_by_preferences`
returns the label of a profile in the table whose distance to the
preference vector is ≤ the distance to every profile, and every profile
strictly before it in iteration order has strictly greater distance (the
first minimum wins).  Determinism is inherent: the model is a pure
function of its arguments. -/
theorem choose_cluster_spec (user : FeatureVec) (profiles : List (Int × FeatureVec))
    (h : profiles ≠ []) :
    ∃ pre p post, profiles = pre ++ p :: post ∧
      choose_cluster_by_preferences user profiles = some p.1 ∧
      (∀ q ∈ profiles, dist2 user p.2 ≤ dist2 user q.2) ∧
      (∀ q ∈ pre, dist2 user p.2 < dist2 user q.2) := by
  cases profiles with
  | nil => exact absurd rfl h
  | cons x rest =>
    have hstep : (x :: rest).foldl (choose_step user) none =
        rest.foldl (choose_step user) (some (x.1, dist2 user x.2)) := by
      simp [List.foldl_cons, choose_step]
    rcases choose_fold_characterization user rest x.1 (dist2 user x.2) with
      ⟨heq, hall⟩ | ⟨pre, p, post, hl, heq, hlt, hpre, hall⟩
    · refine ⟨[], x, rest, by simp, ?_, ?_, by simp⟩
      · simp [choose_cluster_by_preferences, hstep, heq]
      · intro q hq
        rcases List.mem_cons.mp hq with rfl | hq2
        · exact le_refl _
        · exact hall q hq2
    · refine ⟨x :: pre, p, post, by rw [hl, List.cons_append], ?_, ?_, ?_⟩
      · simp [choose_cluster_by_preferences, hstep, heq]
      · intro q hq
        rcases List.mem_cons.mp hq with rfl | hq2
        · exact le_of_lt hlt
        · exact hall q (hl ▸ hq2)
      · intro q hq
        rcases List.mem_cons.mp hq with rfl | hq2
        · exact hlt
        · exact hpre q hq2

/-- C3 witness: a two-profile table where the second profile is nearer. -/
theorem choose_cluster_spec_witness :
    testProfiles ≠ [] ∧
    (∃ pre p post, testProfiles = pre ++ p :: post ∧
      choose_cluster_by_preferences testUserVec testProfiles = some p.1 ∧
      (∀ q ∈ testProfiles, dist2 testUserVec p.2 ≤ dist2 testUserVec q.2) ∧
      (∀ q ∈ pre, dist2 testUserVec p.2 < dist2 testUserVec q.2)) :=
  ⟨by simp [testProfiles],
   choose_cluster_spec testUserVec testProfiles (by simp [testProfiles])⟩

/-! ## C4: mood-polarity map by mean valence -/

theorem mem_insertClusterKey (x y : Int) : ∀ (l : List Int),
    y ∈ insertClusterKey x l ↔ y = x ∨ y ∈ l
  | [] => by simp [insertClusterKey]
  | z :: zs => by
    simp only [insertClusterKey]
    split_ifs with h1 h2
    · simp only [List.mem_cons]
    · subst h2
      simp only [List.mem_cons]
      tauto
    · simp only [List.mem_cons, mem_insertClusterKey x y zs]
      tauto

theorem insertClusterKey_ne_nil (x : Int) (l : List Int) : insertClusterKey x l ≠ [] := by
  cases l with
  | nil => simp [insertClusterKey]
  | cons z zs =>
    simp only [insertClusterKey]
    split_ifs <;> simp

theorem clustersOf_cons (r : VRow) (t : List VRow) :
    clustersOf (r :: t) = insertClusterKey r.cluster (clustersOf t) := rfl

theorem clustersOf_mem (c : Int) : ∀ (df : List VRow),
    c ∈ clustersOf df ↔ ∃ r ∈ df, r.cluster = c
  | [] => by simp [clustersOf]
  | r :: t => by
    rw [clustersOf_cons, mem_insertClusterKey, clustersOf_mem c t]
    constructor
    · rintro (rfl | ⟨r2, hr2, rfl⟩)
      · exact ⟨r, by simp, rfl⟩
      · exact ⟨r2, by simp [hr2], rfl⟩
    · rintro ⟨r2, hr2, rfl⟩
      rcases List.mem_cons.mp hr2 with rfl | hmem
      · left; rfl
      · right; exact ⟨r2, hmem, rfl⟩

theorem clustersOf_ne_nil (df : List VRow) (h : df ≠ []) : clustersOf df ≠ [] := by
  cases df with
  | nil => exact absurd rfl h
  | cons r t =>
    rw [clustersOf_cons]
    exact insertClusterKey_ne_nil r.cluster (clustersOf t)

theorem sorted_valGE_head_max (hd : Int × ℚ) (tl : List (Int × ℚ))
    (hs : List.Sorted valGE (hd :: tl)) : ∀ y ∈ hd :: tl, y.2 ≤ hd.2 := by
  intro y hy
  rcases List.mem_cons.mp hy with rfl | hmem
  · exact le_refl _
  · exact List.rel_of_sorted_cons hs y hmem

theorem sorted_valGE_last_min : ∀ (l : List (Int × ℚ)) (d : Int × ℚ),
    List.Sorted valGE l → ∀ y ∈ l, (l.getLastD d).2 ≤ y.2
  | [], _, _, y, hy => by simp at hy
  | [a], d, _, y, hy => by
    rcases List.mem_cons.mp hy with h1 | hmem
    · rw [h1]
      exact le_refl _
    · simp at hmem
  | a :: b :: t, d, hs, y, hy => by
    have hlast : (a :: b :: t).getLastD d = (b :: t).getLastD a := rfl
    rw [hlast]
    rcases List.mem_cons.mp hy with h1 | hmem
    · rw [h1]
      have hm : (b :: t).getLastD a ∈ b :: t := getLastD_mem (b :: t) a (by simp)
      exact List.rel_of_sorted_cons hs _ hm
    · exact sorted_valGE_last_min (b :: t) a hs.of_cons y hmem

/-- C4: on a non-empty catalog, the happy cluster of
`get_cluster_mapping_by_valence` has mean valence ≥ every cluster and the
sad cluster has mean valence ≤ every cluster; both labels occur in the
catalog, and with exactly one cluster the two labels coincide. -/
theorem get_cluster_mapping_spec (df : List VRow) (h : df ≠ []) :
    ∃ hc sc, get_cluster_mapping_by_valence df = some (hc, sc) ∧
      hc ∈ clustersOf df ∧ sc ∈ clustersOf df ∧
      (∀ c ∈ clustersOf df, meanValence df c ≤ meanValence df hc) ∧
      (∀ c ∈ clustersOf df, meanValence df sc ≤ meanValence df c) ∧
      ((clustersOf df).length = 1 → hc = sc) ∧
      (∀ c, c ∈ clustersOf df ↔ ∃ r ∈ df, r.cluster = c) := by
  have hcl := clustersOf_ne_nil df h
  have hperm := List.perm_insertionSort valGE
    ((clustersOf df).map (fun c => (c, meanValence df c)))
  have hsorted := List.sorted_insertionSort valGE
    ((clustersOf df).map (fun c => (c, meanValence df c)))
  cases hs : List.insertionSort valGE
      ((clustersOf df).map (fun c => (c, meanValence df c))) with
  | nil =>
    exfalso
    rw [hs] at hperm
    have hlen := hperm.length_eq
    simp only [List.length_nil, List.length_map] at hlen
    exact hcl (List.length_eq_zero.mp hlen.symm)
  | cons hd tl =>
    rw [hs] at hperm hsorted
    have hmap : get_cluster_mapping_by_valence df =
        some (hd.1, ((hd :: tl).getLastD hd).1) := by
      simp only [get_cluster_mapping_by_valence]
      rw [hs]
    have hhd_pairs : hd ∈ (clustersOf df).map (fun c => (c, meanValence df c)) :=
      hperm.subset (by simp)
    obtain ⟨c1, hc1mem, hc1eq⟩ := List.mem_map.mp hhd_pairs
    have hlast_mem : (hd :: tl).getLastD hd ∈ hd :: tl := getLastD_mem _ _ (by simp)
    have hlast_pairs : (hd :: tl).getLastD hd ∈
        (clustersOf df).map (fun c => (c, meanValence df c)) := hperm.subset hlast_mem
    obtain ⟨c2, hc2mem, hc2eq⟩ := List.mem_map.mp hlast_pairs
    refine ⟨hd.1, ((hd :: tl).getLastD hd).1, hmap, ?_, ?_, ?_, ?_, ?_, fun c => clustersOf_mem c df⟩
    · rw [← hc1eq]; exact hc1mem
    · rw [← hc2eq]; exact hc2mem
    · intro c hc
      have hpairmem : (c, meanValence df c) ∈ hd :: tl :=
        hperm.symm.subset (List.mem_map_of_mem _ hc)
      have := sorted_valGE_head_max hd tl hsorted _ hpairmem
      have hhd2 : hd.2 = meanValence df hd.1 := by rw [← hc1eq]
      rw [hhd2] at this
      exact this
    · intro c hc
      have hpairmem : (c, meanValence df c) ∈ hd :: tl :=
        hperm.symm.subset (List.mem_map_of_mem _ hc)
      have := sorted_valGE_last_min (hd :: tl) hd hsorted _ hpairmem
      have hsc2 : ((hd :: tl).getLastD hd).2 = meanValence df ((hd :: tl).getLastD hd).1 := by
        rw [← hc2eq]
      rw [hsc2] at this
      exact this
    · intro hone
      have hlen := hperm.length_eq
      simp only [List.length_cons, List.length_map, hone] at hlen
      have htl : tl = [] := by
        cases tl with
        | nil => rfl
        | cons a b => simp at hlen
      subst htl
      rfl

/-- C4 witness: the spec example catalog — clusters 1, 2, 3 with mean
valences 4/5, 1/2, 1/5. -/
theorem get_cluster_mapping_spec_witness :
    valTestRows ≠ [] ∧
    (∃ hc sc, get_cluster_mapping_by_valence valTestRows = some (hc, sc) ∧
      hc ∈ clustersOf valTestRows ∧ sc ∈ clustersOf valTestRows ∧
      (∀ c ∈ clustersOf valTestRows, meanValence valTestRows c ≤ meanValence valTestRows hc) ∧
      (∀ c ∈ clustersOf valTestRows, meanValence valTestRows sc ≤ meanValence valTestRows c) ∧
      ((clustersOf valTestRows).length = 1 → hc = sc) ∧
      (∀ c, c ∈ clustersOf valTestRows ↔ ∃ r ∈ valTestRows, r.cluster = c)) :=
  ⟨by simp [valTestRows],
   get_cluster_mapping_spec valTestRows (by simp [valTestRows])⟩

/-! ## C8: catalog loading, schema failure and link synthesis -/

/-- C8: `load_data` fails exactly when the cluster column or one of the
six required feature columns is absent; with the required schema present
it succeeds, and a missing `spotify_url` column is synthesized from
`track_id`, else from the last colon segment of `uri`, else left unset. -/
theorem load_data_spec (df : Frame) :
    ((∃ e, load_data df = Except.error e) ↔
      hasCol df colCluster = false ∨ ∃ c ∈ FEATURE_COLUMNS, hasCol df c = false) ∧
    (hasCol df colCluster = true → (∀ c ∈ FEATURE_COLUMNS, hasCol df c = true) →
      ((hasCol df colSpotifyUrl = true → load_data df = Except.ok df) ∧
       (hasCol df colSpotifyUrl = false → hasCol df colTrackId = true →
         load_data df = Except.ok (addCol df colSpotifyUrl
           ((getCol df colTrackId).map (Option.map (fun s => spotifyUrlBase ++ s))))) ∧
       (hasCol df colSpotifyUrl = false → hasCol df colTrackId = false →
         hasCol df colUri = true →
         load_data df = Except.ok (addCol df colSpotifyUrl
           ((getCol df colUri).map
             (Option.map (fun s => spotifyUrlBase ++ lastColonSegment s))))) ∧
       (hasCol df colSpotifyUrl = false → hasCol df colTrackId = false →
         hasCol df colUri = false →
         load_data df = Except.ok (addCol df colSpotifyUrl
           (List.replicate (frameRows df) none))))) := by
  by_cases hc : hasCol df colCluster = true
  · by_cases hf : ∀ c ∈ FEATURE_COLUMNS, hasCol df c = true
    · have hfilter : FEATURE_COLUMNS.filter (fun c => !hasCol df c) = [] := by
        rw [List.filter_eq_nil_iff]
        intro c hcmem
        simp [hf c hcmem]
      constructor
      · constructor
        · intro ⟨e, he⟩
          exfalso
          by_cases hs : hasCol df colSpotifyUrl = true
          · simp [load_data, hc, hfilter, hs] at he
          · by_cases ht : hasCol df colTrackId = true
            · simp [load_data, hc, hfilter, hs, ht] at he
            · by_cases hu : hasCol df colUri = true
              · simp [load_data, hc, hfilter, hs, ht, hu] at he
              · simp [load_data, hc, hfilter, hs, ht, hu] at he
        · intro hmiss
          exfalso
          rcases hmiss with hbad | ⟨c, hcmem, hbad⟩
          · rw [hc] at hbad; simp at hbad
          · rw [hf c hcmem] at hbad; simp at hbad
      · intro _ _
        refine ⟨?_, ?_, ?_, ?_⟩
        · intro hs
          simp [load_data, hc, hfilter, hs]
        · intro hs ht
          simp [load_data, hc, hfilter, hs, ht]
        · intro hs ht hu
          simp [load_data, hc, hfilter, hs, ht, hu]
        · intro hs ht hu
          simp [load_data, hc, hfilter, hs, ht, hu]
    · push_neg at hf
      obtain ⟨c0, hc0mem, hc0⟩ := hf
      have hc0f : hasCol df c0 = false := by
        cases hcv : hasCol df c0 with
        | false => rfl
        | true => exact absurd hcv hc0
      have hfilter : FEATURE_COLUMNS.filter (fun c => !hasCol df c) ≠ [] := by
        intro hnil
        have : c0 ∈ FEATURE_COLUMNS.filter (fun c => !hasCol df c) := by
          rw [List.mem_filter]
          exact ⟨hc0mem, by simp [hc0f]⟩
        rw [hnil] at this
        simp at this
      have hload : load_data df = Except.error msgMissingFeatures := by
        have hne : (FEATURE_COLUMNS.filter (fun c => !hasCol df c)).isEmpty = false := by
          cases hl : FEATURE_COLUMNS.filter (fun c => !hasCol df c) with
          | nil => exact absurd hl hfilter
          | cons a t => rfl
        simp [load_data, hc, hne]
      constructor
      · constructor
        · intro _
          right
          exact ⟨c0, hc0mem, hc0f⟩
        · intro _
          exact ⟨msgMissingFeatures, hload⟩
      · intro _ hall
        exact absurd (hall c0 hc0mem) hc0
  · have hcf : hasCol df colCluster = false := by
      cases hcv : hasCol df colCluster with
      | false => rfl
      | true => exact absurd hcv hc
    have hload : load_data df = Except.error msgMissingCluster := by
      simp [load_data, hcf]
    constructor
    · constructor
      · intro _
        left
        exact hcf
      · intro _
        exact ⟨msgMissingCluster, hload⟩
    · intro hcontra
      rw [hcf] at hcontra
      exact absurd hcontra Bool.false_ne_true

/-- C8 witness: a frame with the full required schema and a `track_id`
column gets a synthesized `spotify_url` column. -/
theorem load_data_spec_witness :
    hasCol loadTestFrame colCluster = true ∧
    (∀ c ∈ FEATURE_COLUMNS, hasCol loadTestFrame c = true) ∧
    hasCol loadTestFrame colSpotifyUrl = false ∧
    hasCol loadTestFrame colTrackId = true ∧
    load_data loadTestFrame = Except.ok (addCol loadTestFrame colSpotifyUrl
      ((getCol loadTestFrame colTrackId).map
        (Option.map (fun s => spotifyUrlBase ++ s)))) :=
  ⟨by decide, by decide, by decide, by decide,
   (((load_data_spec loadTestFrame).2 (by decide) (by decide)).2.1 (by decide) (by decide))⟩

/-! ## C9: country filtering by selected option -/

/-- C9 counterexample: from a catalog holding raw countries US and us the
option table backs the first label with the raw value US; the row whose
raw country is us equals that backing value after case folding, yet is
excluded by the filter — the source compares strip-normalized values
case-sensitively, so case-normalized equality does not describe it. -/
theorem country_filter_case_sensitive_cex :
    (lookupAssoc countryMapTest labelAmerikaSerikat).join = some rawUS ∧
    (normalize_country_value (CTrack.mk (some rawUSLower) 1).country).map Char.toLower =
      rawUS.map Char.toLower ∧
    CTrack.mk (some rawUSLower) 1 ∈ countryTestSubset ∧
    CTrack.mk (some rawUSLower) 1 ∉
      apply_country_filter pycNone countryMapTest labelAmerikaSerikat true countryTestSubset := by
  decide

/-- C9 (amended): selecting the unresolved sentinel (mapping value `none`)
keeps exactly the rows whose normalized country is a two-letter alphabetic
code resolving to no display name; selecting a normal option keeps exactly
the rows whose whitespace-normalized raw country equals the backing raw
value case-sensitively; the no-preference option (or an absent country
column) applies no filter. -/
theorem apply_country_filter_spec (pyc : Str → Option Str) (m : List (Str × Option Str))
    (pref : Str) (subset : List CTrack) :
    (pref = strBebas → apply_country_filter pyc m pref true subset = subset) ∧
    (apply_country_filter pyc m pref false subset = subset) ∧
    (pref ≠ strBebas → (lookupAssoc m pref).join = none →
      apply_country_filter pyc m pref true subset =
        subset.filter (fun t => is_unknown_iso2 pyc t.country)) ∧
    (∀ raw, pref ≠ strBebas → (lookupAssoc m pref).join = some raw → raw ≠ [] →
      apply_country_filter pyc m pref true subset =
        subset.filter (fun t => decide (normalize_country_value t.country = raw))) ∧
    (∀ v, is_unknown_iso2 pyc v =
      (looks_like_iso2 (normalize_country_value v) &&
        (country_value_to_display pyc (some (normalize_country_value v))).isEmpty)) := by
  refine ⟨?_, ?_, ?_, ?_, fun v => rfl⟩
  · intro hpref
    simp [apply_country_filter, hpref]
  · simp [apply_country_filter]
  · intro hpref hnone
    have hb : (lookupAssoc m pref).bind (fun a => a) = none := hnone
    simp [apply_country_filter, hpref, hb]
  · intro raw hpref hsome hraw
    have hb : (lookupAssoc m pref).bind (fun a => a) = some raw := hsome
    simp [apply_country_filter, hpref, hb, hraw]

/-- C9 witness: on the two-row subset, the no-preference option keeps
everything and the first display label filters by its backing raw value. -/
theorem apply_country_filter_spec_witness :
    (apply_country_filter pycNone countryMapTest strBebas true countryTestSubset =
      countryTestSubset) ∧
    (apply_country_filter pycNone countryMapTest labelAmerikaSerikat true countryTestSubset =
      countryTestSubset.filter
        (fun t => decide (normalize_country_value t.country = rawUS))) :=
  ⟨(apply_country_filter_spec pycNone countryMapTest strBebas countryTestSubset).1 rfl,
   (apply_country_filter_spec pycNone countryMapTest labelAmerikaSerikat
      countryTestSubset).2.2.2.1 rawUS (by decide) (by decide) (by decide)⟩

/-! ## C6: idempotence of comment sanitation -/

theorem pyIsSpace_elim (c : Char) (hs : pyIsSpace c = true) :
    c = ' ' ∨ c = Char.ofNat 9 ∨ c = Char.ofNat 10 ∨ c = Char.ofNat 13 ∨
    c = Char.ofNat 11 ∨ c = Char.ofNat 12 := by
  simp only [pyIsSpace, Bool.or_eq_true, beq_iff_eq] at hs
  tauto

theorem space_printable_is_blank (c : Char) (hs : pyIsSpace c = true)
    (hp : pyIsPrintable c = true) : c = ' ' := by
  rcases pyIsSpace_elim c hs with h | h | h | h | h | h
  · exact h
  · subst h; exact absurd hp (by decide)
  · subst h; exact absurd hp (by decide)
  · subst h; exact absurd hp (by decide)
  · subst h; exact absurd hp (by decide)
  · subst h; exact absurd hp (by decide)

theorem tab_not_printable : pyIsPrintable (Char.ofNat 9) = false := by decide

theorem nl_not_printable : pyIsPrintable (Char.ofNat 10) = false := by decide

theorem space_printable : pyIsPrintable ' ' = true := by decide

theorem space_is_space : pyIsSpace ' ' = true := by decide

theorem default_not_space : pyIsSpace 'a' = false := by decide

theorem mem_of_mem_dropWhile {α : Type} (p : α → Bool) :
    ∀ (l : List α) (c : α), c ∈ l.dropWhile p → c ∈ l
  | [], c, h => by simp [List.dropWhile] at h
  | a :: t, c, h => by
    rw [List.dropWhile_cons] at h
    by_cases hp : p a
    · rw [if_pos hp] at h
      exact List.mem_cons_of_mem a (mem_of_mem_dropWhile p t c h)
    · rw [if_neg hp] at h
      exact h

theorem mem_trimLeft {c : Char} {l : List Char} (h : c ∈ trimLeft l) : c ∈ l :=
  mem_of_mem_dropWhile pyIsSpace l c h

theorem mem_trimRight {c : Char} {l : List Char} (h : c ∈ trimRight l) : c ∈ l := by
  rw [trimRight, List.mem_reverse] at h
  have h2 := mem_of_mem_dropWhile pyIsSpace l.reverse c h
  rwa [List.mem_reverse] at h2

theorem mem_pyStrip {c : Char} {l : List Char} (h : c ∈ pyStrip l) : c ∈ l :=
  mem_trimLeft (mem_trimRight h)

theorem mem_squeezeAux {c : Char} : ∀ (flag : Bool) (l : List Char),
    c ∈ squeezeAux flag l → c = ' ' ∨ c ∈ l
  | _, [], h => by simp [squeezeAux] at h
  | flag, a :: t, h => by
    by_cases hs : pyIsSpace a
    · cases flag with
      | true =>
        rw [show squeezeAux true (a :: t) = squeezeAux true t by
          simp [squeezeAux, hs]] at h
        rcases mem_squeezeAux true t h with h1 | h1
        · exact Or.inl h1
        · exact Or.inr (List.mem_cons_of_mem a h1)
      | false =>
        rw [show squeezeAux false (a :: t) = ' ' :: squeezeAux true t by
          simp [squeezeAux, hs]] at h
        rcases List.mem_cons.mp h with h1 | h1
        · exact Or.inl h1
        · rcases mem_squeezeAux true t h1 with h2 | h2
          · exact Or.inl h2
          · exact Or.inr (List.mem_cons_of_mem a h2)
    · rw [show squeezeAux flag (a :: t) = a :: squeezeAux false t by
        simp [squeezeAux, hs]] at h
      rcases List.mem_cons.mp h with h1 | h1
      · exact Or.inr (by rw [h1]; exact List.mem_cons_self a t)
      · rcases mem_squeezeAux false t h1 with h2 | h2
        · exact Or.inl h2
        · exact Or.inr (List.mem_cons_of_mem a h2)

theorem squeezeAux_true_head : ∀ (l : List Char),
    pyIsSpace ((squeezeAux true l).headD 'a') = false
  | [] => by simp [squeezeAux, default_not_space]
  | a :: t => by
    by_cases hs : pyIsSpace a
    · rw [show squeezeAux true (a :: t) = squeezeAux true t by simp [squeezeAux, hs]]
      exact squeezeAux_true_head t
    · rw [show squeezeAux true (a :: t) = a :: squeezeAux false t by
        simp [squeezeAux, hs]]
      rw [List.headD_cons]
      exact Bool.not_eq_true _ ▸ (by simpa using hs)

theorem noAdjWS_cons_elim {a : Char} {l : List Char} (h : noAdjWS (a :: l) = true) :
    noAdjWS l = true := by
  simp only [noAdjWS, Bool.and_eq_true] at h
  exact h.2

theorem noAdjWS_squeezeAux : ∀ (l : List Char) (flag : Bool),
    noAdjWS (squeezeAux flag l) = true
  | [], _ => rfl
  | a :: t, flag => by
    by_cases hs : pyIsSpace a
    · cases flag with
      | true =>
        rw [show squeezeAux true (a :: t) = squeezeAux true t by simp [squeezeAux, hs]]
        exact noAdjWS_squeezeAux t true
      | false =>
        rw [show squeezeAux false (a :: t) = ' ' :: squeezeAux true t by
          simp [squeezeAux, hs]]
        simp only [noAdjWS, Bool.and_eq_true]
        refine ⟨?_, noAdjWS_squeezeAux t true⟩
        rw [squeezeAux_true_head t]
        simp
    · rw [show squeezeAux flag (a :: t) = a :: squeezeAux false t by
        simp [squeezeAux, hs]]
      simp only [noAdjWS, Bool.and_eq_true]
      refine ⟨?_, noAdjWS_squeezeAux t false⟩
      simp [hs]

theorem squeezeAux_fix : ∀ (l : List Char),
    (∀ c ∈ l, pyIsSpace c = true → c = ' ') → noAdjWS l = true →
    (squeezeAux false l = l ∧
      (pyIsSpace (l.headD 'a') = false → squeezeAux true l = l))
  | [], _, _ => ⟨rfl, fun _ => rfl⟩
  | a :: t, hsp, hadj => by
    have hadjt : noAdjWS t = true := noAdjWS_cons_elim hadj
    have hspt : ∀ c ∈ t, pyIsSpace c = true → c = ' ' :=
      fun c hc => hsp c (List.mem_cons_of_mem a hc)
    obtain ⟨ih1, ih2⟩ := squeezeAux_fix t hspt hadjt
    by_cases hs : pyIsSpace a
    · have ha : a = ' ' := hsp a (List.mem_cons_self a t) hs
      have hheadt : pyIsSpace (t.headD 'a') = false := by
        cases hv : pyIsSpace (t.headD 'a') with
        | false => rfl
        | true =>
          exfalso
          simp only [noAdjWS, hs, hv, Bool.and_eq_true] at hadj
          simp at hadj
      constructor
      · rw [show squeezeAux false (a :: t) = ' ' :: squeezeAux true t by
          simp [squeezeAux, hs]]
        rw [ih2 hheadt, ha]
      · intro hhead
        rw [List.headD_cons, hs] at hhead
        simp at hhead
    · constructor
      · rw [show squeezeAux false (a :: t) = a :: squeezeAux false t by
          simp [squeezeAux, hs]]
        rw [ih1]
      · intro _
        rw [show squeezeAux true (a :: t) = a :: squeezeAux false t by
          simp [squeezeAux, hs]]
        rw [ih1]

theorem noAdjWS_dropWhile (p : Char → Bool) : ∀ (l : List Char),
    noAdjWS l = true → noAdjWS (l.dropWhile p) = true
  | [], h => h
  | a :: t, h => by
    rw [List.dropWhile_cons]
    by_cases hp : p a
    · rw [if_pos hp]
      exact noAdjWS_dropWhile p t (noAdjWS_cons_elim h)
    · rw [if_neg hp]
      exact h

theorem noAdjWS_take : ∀ (n : Nat) (l : List Char), noAdjWS l = true →
    noAdjWS (l.take n) = true
  | 0, l, _ => by simp [noAdjWS]
  | n + 1, [], h => h
  | n + 1, a :: t, h => by
    rw [List.take_succ_cons]
    simp only [noAdjWS, Bool.and_eq_true] at h ⊢
    obtain ⟨h1, h2⟩ := h
    refine ⟨?_, noAdjWS_take n t h2⟩
    cases hsa : pyIsSpace a with
    | false => simp [hsa]
    | true =>
      have hth : pyIsSpace (t.headD 'a') = false := by
        cases hv : pyIsSpace (t.headD 'a') with
        | false => rfl
        | true => rw [hsa, hv] at h1; simp at h1
      cases n with
      | zero => simp [default_not_space]
      | succ m =>
        cases t with
        | nil => simp [default_not_space]
        | cons b t2 =>
          rw [List.take_succ_cons]
          rw [List.headD_cons] at hth
          simp [hsa, List.headD_cons, hth]

theorem headD_reverse (l : List Char) (d : Char) : l.reverse.headD d = l.getLastD d := by
  rw [List.headD_eq_head?, List.head?_reverse, ← List.getLastD_eq_getLast?]

theorem getLastD_reverse (l : List Char) (d : Char) : l.reverse.getLastD d = l.headD d := by
  have h := headD_reverse l.reverse d
  rw [List.reverse_reverse] at h
  exact h.symm

theorem noAdjWS_append_last : ∀ (l : List Char) (c : Char),
    noAdjWS (l ++ [c]) = (noAdjWS l && !(pyIsSpace (l.getLastD 'a') && pyIsSpace c))
  | [], c => by
    simp [noAdjWS, List.getLastD, default_not_space]
  | x :: xs, c => by
    cases xs with
    | nil =>
      simp [noAdjWS, List.getLastD, default_not_space, Bool.and_comm]
    | cons y ys =>
      have ih := noAdjWS_append_last (y :: ys) c
      have hlast : (x :: y :: ys).getLastD 'a' = (y :: ys).getLastD x := rfl
      have hlast2 : (y :: ys).getLastD x = (y :: ys).getLastD 'a' := rfl
      rw [List.cons_append]
      rw [show noAdjWS (x :: ((y :: ys) ++ [c])) =
        ((!(pyIsSpace x && pyIsSpace ((((y :: ys) ++ [c])).headD 'a'))) &&
          noAdjWS ((y :: ys) ++ [c])) from rfl]
      rw [show noAdjWS (x :: y :: ys) =
        ((!(pyIsSpace x && pyIsSpace ((y :: ys).headD 'a'))) && noAdjWS (y :: ys)) from rfl]
      rw [List.cons_append] at ih
      rw [List.cons_append, List.headD_cons, List.headD_cons, ih, hlast, hlast2,
        Bool.and_assoc]

theorem noAdjWS_reverse : ∀ (l : List Char), noAdjWS l.reverse = noAdjWS l
  | [] => rfl
  | a :: t => by
    rw [List.reverse_cons, noAdjWS_append_last, noAdjWS_reverse t, getLastD_reverse]
    rw [show noAdjWS (a :: t) =
      ((!(pyIsSpace a && pyIsSpace (t.headD 'a'))) && noAdjWS t) from rfl]
    cases pyIsSpace a <;> cases pyIsSpace (t.headD 'a') <;> cases noAdjWS t <;> rfl

theorem noAdjWS_trimRight (l : List Char) (h : noAdjWS l = true) :
    noAdjWS (trimRight l) = true := by
  rw [trimRight, noAdjWS_reverse]
  exact noAdjWS_dropWhile pyIsSpace l.reverse (by rwa [noAdjWS_reverse])

theorem headD_dropWhile (p : Char → Bool) : ∀ (l : List Char) (d : Char), p d = false →
    p ((l.dropWhile p).headD d) = false
  | [], d, hd => by simpa [List.dropWhile] using hd
  | a :: t, d, hd => by
    rw [List.dropWhile_cons]
    by_cases hp : p a
    · rw [if_pos hp]
      exact headD_dropWhile p t d hd
    · rw [if_neg hp, List.headD_cons]
      cases hv : p a with
      | false => rfl
      | true => exact absurd hv hp

theorem trimRight_prefix (l : List Char) : ∃ t, trimRight l ++ t = l := by
  have hsuf : List.IsSuffix (l.reverse.dropWhile pyIsSpace) l.reverse :=
    List.dropWhile_suffix pyIsSpace
  obtain ⟨t, ht⟩ := hsuf
  refine ⟨t.reverse, ?_⟩
  have h2 := congrArg List.reverse ht
  rw [List.reverse_append, List.reverse_reverse] at h2
  exact h2

theorem trimRight_headD (l : List Char) (h : pyIsSpace (l.headD 'a') = false) :
    pyIsSpace ((trimRight l).headD 'a') = false := by
  obtain ⟨t, ht⟩ := trimRight_prefix l
  cases htr : trimRight l with
  | nil => exact default_not_space
  | cons x xs =>
    rw [htr] at ht
    rw [List.headD_cons]
    rw [← ht, List.cons_append, List.headD_cons] at h
    exact h

theorem trimRight_getLastD (l : List Char) :
    pyIsSpace ((trimRight l).getLastD 'a') = false := by
  rw [trimRight, getLastD_reverse]
  exact headD_dropWhile pyIsSpace l.reverse 'a' default_not_space

theorem trimLeft_fix (l : List Char) (h : pyIsSpace (l.headD 'a') = false) :
    trimLeft l = l := by
  rw [trimLeft]
  cases l with
  | nil => rfl
  | cons a t =>
    rw [List.headD_cons] at h
    rw [List.dropWhile_cons, if_neg (by simp [h])]

theorem trimRight_fix (l : List Char) (h : pyIsSpace (l.getLastD 'a') = false) :
    trimRight l = l := by
  have h2 : pyIsSpace (l.reverse.headD 'a') = false := by
    rw [headD_reverse]
    exact h
  have h3 := trimLeft_fix l.reverse h2
  rw [trimLeft] at h3
  rw [trimRight, h3, List.reverse_reverse]

theorem trimRight_length_le (l : List Char) : (trimRight l).length ≤ l.length := by
  obtain ⟨t, ht⟩ := trimRight_prefix l
  have h2 := congrArg List.length ht
  rw [List.length_append] at h2
  omega

theorem headD_take_not_space (l : List Char) (n : Nat)
    (h : pyIsSpace (l.headD 'a') = false) :
    pyIsSpace ((l.take n).headD 'a') = false := by
  cases n with
  | zero => exact default_not_space
  | succ m =>
    cases l with
    | nil => exact default_not_space
    | cons a t =>
      rw [List.take_succ_cons, List.headD_cons]
      rwa [List.headD_cons] at h

theorem map_eq_self_of_fix {α : Type} (f : α → α) : ∀ (l : List α),
    (∀ c ∈ l, f c = c) → l.map f = l
  | [], _ => rfl
  | a :: t, h => by
    rw [List.map_cons, h a (List.mem_cons_self a t),
      map_eq_self_of_fix f t (fun c hc => h c (List.mem_cons_of_mem a hc))]

theorem sanitize_out_props (maxLen : Nat) (text : Str) :
    (∀ c ∈ sanitize_comment_max maxLen text, pyIsPrintable c = true) ∧
    noAdjWS (sanitize_comment_max maxLen text) = true ∧
    pyIsSpace ((sanitize_comment_max maxLen text).headD 'a') = false ∧
    pyIsSpace ((sanitize_comment_max maxLen text).getLastD 'a') = false ∧
    (sanitize_comment_max maxLen text).length ≤ maxLen := by
  have hB : ∀ c ∈ (text.filter keepPrintable).map foldTabNL, pyIsPrintable c = true := by
    intro c hc
    obtain ⟨a, ha, rfl⟩ := List.mem_map.mp hc
    have hka : keepPrintable a = true := (List.mem_filter.mp ha).2
    by_cases h9 : a = Char.ofNat 9
    · subst h9
      rw [show foldTabNL (Char.ofNat 9) = ' ' from by decide]
      exact space_printable
    · by_cases h10 : a = Char.ofNat 10
      · subst h10
        rw [show foldTabNL (Char.ofNat 10) = ' ' from by decide]
        exact space_printable
      · have hfix : foldTabNL a = a := by
          rw [foldTabNL, if_neg]
          simp [h9, h10]
        rw [hfix]
        simp only [keepPrintable, Bool.or_eq_true, beq_iff_eq] at hka
        rcases hka with (h | h) | h
        · exact h
        · exact absurd h h10
        · exact absurd h h9
  have hC : ∀ c ∈ squeezeWS ((text.filter keepPrintable).map foldTabNL),
      pyIsPrintable c = true := by
    intro c hc
    rcases mem_squeezeAux false _ hc with h1 | h1
    · rw [h1]; exact space_printable
    · exact hB c h1
  have hD : ∀ c ∈ pyStrip (squeezeWS ((text.filter keepPrintable).map foldTabNL)),
      pyIsPrintable c = true :=
    fun c hc => hC c (mem_pyStrip hc)
  have hD_adj : noAdjWS (pyStrip (squeezeWS ((text.filter keepPrintable).map foldTabNL))) =
      true :=
    noAdjWS_trimRight _ (noAdjWS_dropWhile pyIsSpace _ (noAdjWS_squeezeAux _ false))
  have hD_head : pyIsSpace
      ((pyStrip (squeezeWS ((text.filter keepPrintable).map foldTabNL))).headD 'a') = false :=
    trimRight_headD _ (headD_dropWhile pyIsSpace _ 'a' default_not_space)
  have hD_last : pyIsSpace
      ((pyStrip (squeezeWS ((text.filter keepPrintable).map foldTabNL))).getLastD 'a') =
      false :=
    trimRight_getLastD _
  have hdef : sanitize_comment_max maxLen text =
      (if maxLen <
          (pyStrip (squeezeWS ((text.filter keepPrintable).map foldTabNL))).length
        then trimRight
          ((pyStrip (squeezeWS ((text.filter keepPrintable).map foldTabNL))).take maxLen)
        else pyStrip (squeezeWS ((text.filter keepPrintable).map foldTabNL))) := rfl
  by_cases hlen : maxLen <
      (pyStrip (squeezeWS ((text.filter keepPrintable).map foldTabNL))).length
  · rw [hdef, if_pos hlen]
    refine ⟨?_, ?_, ?_, ?_, ?_⟩
    · intro c hc
      exact hD c (List.mem_of_mem_take (mem_trimRight hc))
    · exact noAdjWS_trimRight _ (noAdjWS_take maxLen _ hD_adj)
    · exact trimRight_headD _ (headD_take_not_space _ maxLen hD_head)
    · exact trimRight_getLastD _
    · have h1 := trimRight_length_le
        ((pyStrip (squeezeWS ((text.filter keepPrintable).map foldTabNL))).take maxLen)
      have h2 := List.length_take maxLen
        (pyStrip (squeezeWS ((text.filter keepPrintable).map foldTabNL)))
      omega
  · rw [hdef, if_neg hlen]
    exact ⟨hD, hD_adj, hD_head, hD_last, by omega⟩

theorem sanitize_fix (maxLen : Nat) (l : Str)
    (hprint : ∀ c ∈ l, pyIsPrintable c = true)
    (hadj : noAdjWS l = true)
    (hhead : pyIsSpace (l.headD 'a') = false)
    (hlast : pyIsSpace (l.getLastD 'a') = false)
    (hlen : l.length ≤ maxLen) :
    sanitize_comment_max maxLen l = l := by
  have hfil : l.filter keepPrintable = l := by
    rw [List.filter_eq_self]
    intro a ha
    simp [keepPrintable, hprint a ha]
  have hmap : l.map foldTabNL = l := by
    apply map_eq_self_of_fix
    intro c hc
    rw [foldTabNL, if_neg]
    intro hcond
    simp only [Bool.or_eq_true, beq_iff_eq] at hcond
    have hcp := hprint c hc
    rcases hcond with rfl | rfl
    · rw [tab_not_printable] at hcp
      exact Bool.false_ne_true hcp
    · rw [nl_not_printable] at hcp
      exact Bool.false_ne_true hcp
  have hsq : squeezeWS l = l := by
    have hsp : ∀ c ∈ l, pyIsSpace c = true → c = ' ' :=
      fun c hc hcs => space_printable_is_blank c hcs (hprint c hc)
    exact (squeezeAux_fix l hsp hadj).1
  have hstrip : pyStrip l = l := by
    rw [pyStrip]
    rw [show trimLeft l = l from trimLeft_fix l hhead]
    exact trimRight_fix l hlast
  rw [show sanitize_comment_max maxLen l =
      (if maxLen < (pyStrip (squeezeWS ((l.filter keepPrintable).map foldTabNL))).length
        then trimRight
          ((pyStrip (squeezeWS ((l.filter keepPrintable).map foldTabNL))).take maxLen)
        else pyStrip (squeezeWS ((l.filter keepPrintable).map foldTabNL))) from rfl]
  rw [hfil, hmap, hsq, hstrip]
  rw [if_neg (by omega)]

/-- C6: comment sanitation is idempotent — applying `sanitize_comment`
(strip non-printables, fold tab/newline to spaces, collapse whitespace
runs, strip the ends, truncate to 500) twice equals applying it once. -/
theorem sanitize_comment_idempotent (text : Str) :
    sanitize_comment (sanitize_comment text) = sanitize_comment text := by
  obtain ⟨h1, h2, h3, h4, h5⟩ := sanitize_out_props 500 text
  show sanitize_comment_max 500 (sanitize_comment_max 500 text) = sanitize_comment_max 500 text
  exact sanitize_fix 500 _ h1 h2 h3 h4 h5
